import Mathlib

/-!
# CrawlerBee.Fetch: extraction and novelty tracking

A shallow embedding of `bees/crawlerbee/crawlerbee.go`.  The bee's mutable fields become
an explicit record threaded through one poll; the goquery selections are finite lists of
nodes; the `net/url` operations the poll calls are a parameter record.
-/

set_option autoImplicit false

namespace Crawlerbee

/-- One element of a goquery selection: its text content and its `href` attribute
(`none` when `Attr("href")` reports the attribute absent). -/
structure Node where
  text : String
  href : Option String

/-- One element matched by `feed_sel`.  `find s` is `sel.Find(s)`: `none` stands for a
nil selection, `some ns` for a selection whose elements are `ns` in document order. -/
structure Container where
  find : String → Option (List Node)

/-- The parsed response: `find s` is the list of elements of `doc.Find(s)`. -/
structure Document where
  find : String → List Container

/-- The operations of `net/url` used by `Fetch`; `parse` is `none` when `url.Parse` errs. -/
structure UrlLib (URL : Type) where
  parse : String → Option URL
  isAbs : URL → Bool
  resolveReference : URL → URL → URL
  string : URL → String

/-- The `bees.Placeholder` record. -/
structure Placeholder where
  name : String
  type : String
  value : String
deriving DecidableEq, Repr

/-- The `bees.Event` record. -/
structure Event where
  bee : String
  name : String
  options : List Placeholder
deriving DecidableEq, Repr

/-- The distinct error returns of `Fetch`, one constructor per message shape. -/
inductive FetchError where
  | urlParse (u : String)
  | urlNotAbs (u : String)
  | transport (msg : String)
  | feedSelLength (n : Nat)
  | titleSelInvalid
  | titleSelLength (n : Nat)
  | titleSelEmpty
  | urlSelInvalid
  | urlSelLength (n : Nat)
  | descriptionSelInvalid
  | descriptionSelLength (n : Nat)
deriving DecidableEq, Repr

/-- Whether the error message starts with `title_sel:`. -/
def FetchError.isTitleSel : FetchError → Bool
  | .titleSelInvalid => true
  | .titleSelLength _ => true
  | .titleSelEmpty => true
  | _ => false

/-- The fields of the `CrawlerBee` struct; `name` is what `mod.Name()` returns and
`eventChan` is the sequence of events sent on the channel so far. -/
structure CrawlerBee where
  name : String
  url : String
  skipNextFetch : Bool
  feedSel : String
  titleSel : String
  descriptionSel : String
  urlSel : String
  fullCompare : Bool
  lastTitle : String
  lastTitleM : Finset String
  eventChan : List Event

/-- The variables shared between `Fetch` and the closure passed to `EachWithBreak`. -/
structure Scan where
  mod : CrawlerBee
  errInEach : Option FetchError
  lastTitleM : Finset String
  feedCnt : Nat

/-- Lines 117-133: the title of a container.  A selection of length below 1 is the empty
list, and `First()` of a non-empty one is its head. -/
def extractTitle (mod : CrawlerBee) (sel : Container) : Except FetchError String :=
  match sel.find mod.titleSel with
  | none => .error .titleSelInvalid
  | some titleSel =>
    match titleSel with
    | [] => .error (.titleSelLength 0)
    | first :: _ =>
      let title := first.text
      if title.length == 0 then .error .titleSelEmpty
      else .ok title

/-- Lines 147-183: the link of a container. -/
def extractUri {URL : Type} (lib : UrlLib URL) (site : URL) (mod : CrawlerBee)
    (sel : Container) : Except FetchError String :=
  if mod.urlSel.length != 0 then
    match sel.find mod.urlSel with
    | none => .error .urlSelInvalid
    | some urlSel =>
      match urlSel with
      | [] => .error (.urlSelLength 0)
      | first :: _ =>
        match first.href with
        | none => .error .urlSelInvalid
        | some urlStr =>
          if urlStr.length == 0 then .error .urlSelInvalid
          else
            match lib.parse urlStr with
            | none => .error .urlSelInvalid
            | some u =>
              if !lib.isAbs u then .ok (lib.string (lib.resolveReference site u))
              else .ok urlStr
  else .ok ""

/-- Lines 185-199: the description of a container. -/
def extractDescription (mod : CrawlerBee) (sel : Container) : Except FetchError String :=
  if mod.descriptionSel.length != 0 then
    match sel.find mod.descriptionSel with
    | none => .error .descriptionSelInvalid
    | some descriptionSel =>
      match descriptionSel with
      | [] => .error (.descriptionSelLength 0)
      | first :: _ => .ok first.text
  else .ok ""

/-- Lines 210-230: the event built for a new item. -/
def newitemEvent (bee title description uri : String) : Event :=
  { bee := bee
    name := "new_item"
    options :=
      [ { name := "title", type := "string", value := title },
        { name := "description", type := "string", value := description },
        { name := "url", type := "string", value := uri } ] }

/-- Lines 116-237: the closure passed to `EachWithBreak`; the Boolean is its return value
(`true` continues the iteration, `false` breaks it).  `lastTitle` is the copy taken at
line 111. -/
def callback {URL : Type} (lib : UrlLib URL) (site : URL) (lastTitle : String)
    (idx : Nat) (sel : Container) (s : Scan) : Scan × Bool :=
  match extractTitle s.mod sel with
  | .error e => ({ s with errInEach := some e }, false)
  | .ok title =>
    let s := { s with lastTitleM := insert title s.lastTitleM }
    if !s.mod.fullCompare && title == lastTitle then (s, false)
    else if s.mod.fullCompare && decide (title ∈ s.mod.lastTitleM) then (s, true)
    else
      match extractUri lib site s.mod sel with
      | .error e => ({ s with errInEach := some e }, false)
      | .ok uri =>
        match extractDescription s.mod sel with
        | .error e => ({ s with errInEach := some e }, false)
        | .ok description =>
          let s := if idx == 0 then { s with mod := { s.mod with lastTitle := title } } else s
          if s.mod.skipNextFetch then
            ({ s with mod := { s.mod with skipNextFetch := false } }, false)
          else
            let ev := newitemEvent s.mod.name title description uri
            ({ s with mod := { s.mod with eventChan := s.mod.eventChan ++ [ev] },
                      feedCnt := s.feedCnt + 1 }, true)

/-- The iteration of goquery's `EachWithBreak`: call `f` on each element with its index,
in order, until `f` returns `false`. -/
def eachWithBreak {σ : Type} (f : Nat → Container → σ → σ × Bool) :
    Nat → List Container → σ → σ
  | _, [], s => s
  | idx, sel :: rest, s =>
    match f idx sel s with
    | (s1, true) => eachWithBreak f (idx + 1) rest s1
    | (s1, false) => s1

/-- The method `Fetch`: `resp` is the outcome of lines 94-102 (the HTTP GET and the parse
of its body), the result is the bee after the poll and the returned error (`none` for
nil).  The `Logf` calls of lines 247-253 leave the bee unchanged. -/
def Fetch {URL : Type} (lib : UrlLib URL) (resp : Except String Document)
    (mod : CrawlerBee) : CrawlerBee × Option FetchError :=
  match lib.parse mod.url with
  | none => (mod, some (.urlParse mod.url))
  | some site =>
    if !lib.isAbs site then (mod, some (.urlNotAbs mod.url))
    else
      match resp with
      | .error msg => (mod, some (.transport msg))
      | .ok doc =>
        let feedSel := doc.find mod.feedSel
        if feedSel.length < 1 then (mod, some (.feedSelLength feedSel.length))
        else
          let s := eachWithBreak (callback lib site mod.lastTitle) 0 feedSel
            { mod := mod, errInEach := none, lastTitleM := ∅, feedCnt := 0 }
          match s.errInEach with
          | some e => (s.mod, some e)
          | none =>
            if s.mod.fullCompare then ({ s.mod with lastTitleM := s.lastTitleM }, none)
            else (s.mod, none)

/-! ## Vocabulary of the specification -/

/-- A candidate of the spec: the three strings extracted from one container. -/
structure Item where
  title : String
  description : String
  uri : String
deriving DecidableEq, Repr

/-- The extraction of one container as the spec describes it: title first, then link,
then description, the first failure being the result. -/
def extract {URL : Type} (lib : UrlLib URL) (site : URL) (mod : CrawlerBee)
    (sel : Container) : Except FetchError Item :=
  match extractTitle mod sel with
  | .error e => .error e
  | .ok title =>
    match extractUri lib site mod sel with
    | .error e => .error e
    | .ok uri =>
      match extractDescription mod sel with
      | .error e => .error e
      | .ok description => .ok { title := title, description := description, uri := uri }

/-- The `new_item` event of a candidate. -/
def Item.event (bee : String) (it : Item) : Event :=
  newitemEvent bee it.title it.description it.uri

/-- Simple-mode novelty of the spec: the candidates before the first one that carries the
remembered title. -/
def newSimple (lastTitle : String) (items : List Item) : List Item :=
  items.takeWhile (fun it => it.title != lastTitle)

/-- Full-mode novelty of the spec: the candidates whose title is not in the memory set. -/
def newFull (memory : Finset String) (items : List Item) : List Item :=
  items.filter (fun it => decide (it.title ∉ memory))

/-- The candidates that are new under the novelty rule selected by `fullCompare`. -/
def newItems (mod : CrawlerBee) (items : List Item) : List Item :=
  if mod.fullCompare then newFull mod.lastTitleM items else newSimple mod.lastTitle items

/-- A title is fresh for a bee when the novelty test of lines 137-145 lets it through:
it differs from the remembered title (Simple mode), it is not in the memory set (Full
mode). -/
def Fresh (mod : CrawlerBee) (lastTitle title : String) : Prop :=
  (mod.fullCompare = false → title ≠ lastTitle) ∧
    (mod.fullCompare = true → title ∉ mod.lastTitleM)

/-- The url field the spec prescribes for a container: empty when `url_sel` is not
configured; otherwise the `href` of the first `url_sel` match, unchanged when it parses
as an absolute URL, resolved against the base `site` when it parses as a relative one. -/
def UrlRule {URL : Type} (lib : UrlLib URL) (site : URL) (mod : CrawlerBee)
    (c : Container) (uri : String) : Prop :=
  (mod.urlSel.length = 0 ∧ uri = "") ∨
    (mod.urlSel.length ≠ 0 ∧
      ∃ first rest href u, c.find mod.urlSel = some (first :: rest) ∧
        first.href = some href ∧ lib.parse href = some u ∧
        ((lib.isAbs u = true ∧ uri = href) ∨
          (lib.isAbs u = false ∧ uri = lib.string (lib.resolveReference site u))))

/-- The state in which the iteration of lines 116-237 leaves the shared variables. -/
def scan {URL : Type} (lib : UrlLib URL) (site : URL) (mod : CrawlerBee)
    (doc : Document) : Scan :=
  eachWithBreak (callback lib site mod.lastTitle) 0 (doc.find mod.feedSel)
    { mod := mod, errInEach := none, lastTitleM := ∅, feedCnt := 0 }

/-- Two bees agree on every field that the closure reads but never writes. -/
def SameOptions (a b : CrawlerBee) : Prop :=
  a.name = b.name ∧ a.titleSel = b.titleSel ∧ a.urlSel = b.urlSel ∧
    a.descriptionSel = b.descriptionSel ∧ a.fullCompare = b.fullCompare ∧
    a.lastTitleM = b.lastTitleM

/-! ## Concrete inputs -/

/-- A toy `net/url`: every string parses, a URL is absolute when it starts with `h`,
resolution prepends the base. -/
def toyLib : UrlLib String where
  parse := fun s => some s
  isAbs := fun s => s.front == 'h'
  resolveReference := fun base ref => base ++ ref
  string := fun s => s

/-- A container whose `t`, `u` and `d` selections are the given lists. -/
def mkContainer (titles links descriptions : List Node) : Container where
  find := fun s =>
    if s = "t" then some titles else if s = "u" then some links
    else if s = "d" then some descriptions else some []

/-- A well-formed container with one title element. -/
def item (title : String) : Container :=
  mkContainer [⟨title, none⟩] [⟨"", some ("/" ++ title)⟩] [⟨"about " ++ title, none⟩]

/-- A container without any title element. -/
def untitled : Container :=
  mkContainer [] [⟨"", some "/x"⟩] [⟨"about x", none⟩]

/-- A document whose `f` selection is the given list of containers. -/
def mkDocument (cs : List Container) : Document where
  find := fun s => if s = "f" then cs else []

/-- A bee configured with the selectors of the toy documents. -/
def mkBee (fullCompare skipNextFetch : Bool) (lastTitle : String)
    (lastTitleM : Finset String) : CrawlerBee :=
  { name := "crawler", url := "h://site", skipNextFetch := skipNextFetch,
    feedSel := "f", titleSel := "t", descriptionSel := "d", urlSel := "u",
    fullCompare := fullCompare, lastTitle := lastTitle, lastTitleM := lastTitleM,
    eventChan := [] }

/-- The candidate that `item title` extracts to under `toyLib` and base `h://site`. -/
def itemOf (title : String) : Item :=
  { title := title, description := "about " ++ title, uri := "h://site/" ++ title }

/-- The document of the spec's scenarios. -/
def docABC : Document := mkDocument [item "A", item "B", item "C"]

/-- A document of four well-formed containers. -/
def docABCD : Document := mkDocument [item "A", item "B", item "C", item "D"]

/-- A document whose second container has no title element. -/
def docAU : Document := mkDocument [item "A", untitled]

/-- A document whose first container links to an absolute address and whose second
container links to a relative one. -/
def docLinks : Document :=
  mkDocument
    [mkContainer [⟨"A", none⟩] [⟨"", some "h://other/a"⟩] [⟨"about A", none⟩], item "B"]

/-- A bee like `mkBee false false "Z" ∅` with `url_sel` left unconfigured. -/
def beeNoUrlSel : CrawlerBee :=
  { mkBee false false "Z" ∅ with urlSel := "" }

/-! ## The closure, case by case -/

theorem SameOptions.rfl_ (a : CrawlerBee) : SameOptions a a :=
  ⟨rfl, rfl, rfl, rfl, rfl, rfl⟩

theorem SameOptions.trans_ {a b c : CrawlerBee} (h : SameOptions a b)
    (hbc : SameOptions b c) : SameOptions a c := by
  obtain ⟨h1, h2, h3, h4, h5, h6⟩ := h
  obtain ⟨g1, g2, g3, g4, g5, g6⟩ := hbc
  exact ⟨h1.trans g1, h2.trans g2, h3.trans g3, h4.trans g4, h5.trans g5, h6.trans g6⟩

theorem extractTitle_congr {a b : CrawlerBee} (h : SameOptions a b) (sel : Container) :
    extractTitle a sel = extractTitle b sel := by
  obtain ⟨_, h2, _, _, _, _⟩ := h
  simp only [extractTitle, h2]

theorem extractUri_congr {URL : Type} (lib : UrlLib URL) (site : URL) {a b : CrawlerBee}
    (h : SameOptions a b) (sel : Container) :
    extractUri lib site a sel = extractUri lib site b sel := by
  obtain ⟨_, _, h3, _, _, _⟩ := h
  simp only [extractUri, h3]

theorem extractDescription_congr {a b : CrawlerBee} (h : SameOptions a b) (sel : Container) :
    extractDescription a sel = extractDescription b sel := by
  obtain ⟨_, _, _, h4, _, _⟩ := h
  simp only [extractDescription, h4]

theorem extract_congr {URL : Type} (lib : UrlLib URL) (site : URL) {a b : CrawlerBee}
    (h : SameOptions a b) (sel : Container) :
    extract lib site a sel = extract lib site b sel := by
  simp only [extract, extractTitle_congr h, extractUri_congr lib site h,
    extractDescription_congr h]

theorem extract_ok {URL : Type} {lib : UrlLib URL} {site : URL} {mod : CrawlerBee}
    {sel : Container} {it : Item} (h : extract lib site mod sel = .ok it) :
    extractTitle mod sel = .ok it.title ∧ extractUri lib site mod sel = .ok it.uri ∧
      extractDescription mod sel = .ok it.description := by
  unfold extract at h
  cases ht : extractTitle mod sel with
  | error e => rw [ht] at h; cases h
  | ok t =>
    cases hu : extractUri lib site mod sel with
    | error e => rw [ht, hu] at h; cases h
    | ok u =>
      cases hd : extractDescription mod sel with
      | error e => rw [ht, hu, hd] at h; cases h
      | ok d =>
        rw [ht, hu, hd] at h
        cases h
        exact ⟨rfl, rfl, rfl⟩

/-- The closure never touches the options nor the bee's own `lastTitleM`. -/
theorem callback_sameOptions {URL : Type} (lib : UrlLib URL) (site : URL) (lt : String)
    (idx : Nat) (sel : Container) (s : Scan) :
    SameOptions (callback lib site lt idx sel s).1.mod s.mod := by
  unfold callback
  split
  · exact SameOptions.rfl_ _
  · dsimp only
    split
    · exact SameOptions.rfl_ _
    · split
      · exact SameOptions.rfl_ _
      · split
        · exact SameOptions.rfl_ _
        · split
          · exact SameOptions.rfl_ _
          · split <;> split <;> exact ⟨rfl, rfl, rfl, rfl, rfl, rfl⟩

section Cases

variable {URL : Type} (lib : UrlLib URL) (site : URL) (lt : String) (idx : Nat)
  (sel : Container) (s : Scan)

theorem callback_title_error {e : FetchError} (ht : extractTitle s.mod sel = .error e) :
    callback lib site lt idx sel s = ({ s with errInEach := some e }, false) := by
  unfold callback
  rw [ht]

theorem callback_stop {t : String} (ht : extractTitle s.mod sel = .ok t)
    (hf : s.mod.fullCompare = false) (heq : t = lt) :
    callback lib site lt idx sel s =
      ({ s with lastTitleM := insert t s.lastTitleM }, false) := by
  unfold callback
  rw [ht]
  simp [hf, heq]

theorem callback_seen {t : String} (ht : extractTitle s.mod sel = .ok t)
    (hf : s.mod.fullCompare = true) (hm : t ∈ s.mod.lastTitleM) :
    callback lib site lt idx sel s =
      ({ s with lastTitleM := insert t s.lastTitleM }, true) := by
  unfold callback
  rw [ht]
  simp [hf, hm]

theorem callback_uri_error {t : String} {e : FetchError}
    (ht : extractTitle s.mod sel = .ok t) (hn : Fresh s.mod lt t)
    (hu : extractUri lib site s.mod sel = .error e) :
    callback lib site lt idx sel s =
      ({ s with lastTitleM := insert t s.lastTitleM, errInEach := some e }, false) := by
  unfold callback
  rw [ht]
  cases hf : s.mod.fullCompare with
  | false => simp [hf, hn.1 hf, hu]
  | true => simp [hf, hn.2 hf, hu]

theorem callback_description_error {t u : String} {e : FetchError}
    (ht : extractTitle s.mod sel = .ok t) (hn : Fresh s.mod lt t)
    (hu : extractUri lib site s.mod sel = .ok u)
    (hd : extractDescription s.mod sel = .error e) :
    callback lib site lt idx sel s =
      ({ s with lastTitleM := insert t s.lastTitleM, errInEach := some e }, false) := by
  unfold callback
  rw [ht]
  cases hf : s.mod.fullCompare with
  | false => simp [hf, hn.1 hf, hu, hd]
  | true => simp [hf, hn.2 hf, hu, hd]

theorem callback_skip {t u d : String}
    (ht : extractTitle s.mod sel = .ok t) (hn : Fresh s.mod lt t)
    (hu : extractUri lib site s.mod sel = .ok u)
    (hd : extractDescription s.mod sel = .ok d) (hs : s.mod.skipNextFetch = true) :
    callback lib site lt idx sel s =
      ({ s with
          lastTitleM := insert t s.lastTitleM
          mod := { s.mod with
            lastTitle := if idx = 0 then t else s.mod.lastTitle
            skipNextFetch := false } }, false) := by
  unfold callback
  rw [ht]
  by_cases hi : idx = 0 <;> cases hf : s.mod.fullCompare
  · simp [hf, hn.1 hf, hu, hd, hs, hi]
  · simp [hf, hn.2 hf, hu, hd, hs, hi]
  · simp [hf, hn.1 hf, hu, hd, hs, hi]
  · simp [hf, hn.2 hf, hu, hd, hs, hi]

theorem callback_emit {t u d : String}
    (ht : extractTitle s.mod sel = .ok t) (hn : Fresh s.mod lt t)
    (hu : extractUri lib site s.mod sel = .ok u)
    (hd : extractDescription s.mod sel = .ok d) (hs : s.mod.skipNextFetch = false) :
    callback lib site lt idx sel s =
      ({ s with
          lastTitleM := insert t s.lastTitleM
          mod := { s.mod with
            lastTitle := if idx = 0 then t else s.mod.lastTitle
            eventChan := s.mod.eventChan ++ [newitemEvent s.mod.name t d u] }
          feedCnt := s.feedCnt + 1 }, true) := by
  unfold callback
  rw [ht]
  by_cases hi : idx = 0 <;> cases hf : s.mod.fullCompare
  · simp [hf, hn.1 hf, hu, hd, hs, hi]
  · simp [hf, hn.2 hf, hu, hd, hs, hi]
  · simp [hf, hn.1 hf, hu, hd, hs, hi]
  · simp [hf, hn.2 hf, hu, hd, hs, hi]

end Cases

/-! ## The novelty rules on a list of candidates -/

theorem Fresh.congr {a b : CrawlerBee} (h : SameOptions a b) {lt t : String}
    (hn : Fresh b lt t) : Fresh a lt t := by
  obtain ⟨_, _, _, _, h5, h6⟩ := h
  unfold Fresh at *
  rw [h5, h6]
  exact hn

theorem not_fresh {mod : CrawlerBee} {lt t : String} (hn : ¬ Fresh mod lt t) :
    (mod.fullCompare = false ∧ t = lt) ∨ (mod.fullCompare = true ∧ t ∈ mod.lastTitleM) := by
  unfold Fresh at hn
  cases hf : mod.fullCompare with
  | false =>
    left
    refine ⟨rfl, ?_⟩
    by_contra hne
    exact hn ⟨fun _ => hne, fun h => absurd (hf.symm.trans h) (by decide)⟩
  | true =>
    right
    refine ⟨rfl, ?_⟩
    by_contra hne
    exact hn ⟨fun h => absurd (hf.symm.trans h) (by decide), fun _ => hne⟩

theorem newItems_nil (mod : CrawlerBee) : newItems mod [] = [] := by
  unfold newItems newFull newSimple
  split <;> rfl

theorem newItems_cons_fresh {mod : CrawlerBee} {it : Item}
    (hn : Fresh mod mod.lastTitle it.title) (items : List Item) :
    newItems mod (it :: items) = it :: newItems mod items := by
  unfold newItems newFull newSimple
  cases hf : mod.fullCompare with
  | false => simp [List.takeWhile_cons, hn.1 hf]
  | true => simp [List.filter_cons, hn.2 hf]

theorem newItems_cons_stop {mod : CrawlerBee} {it : Item} (hf : mod.fullCompare = false)
    (heq : it.title = mod.lastTitle) (items : List Item) :
    newItems mod (it :: items) = [] := by
  unfold newItems newSimple
  simp [hf, List.takeWhile_cons, heq]

theorem newItems_cons_seen {mod : CrawlerBee} {it : Item} (hf : mod.fullCompare = true)
    (hm : it.title ∈ mod.lastTitleM) (items : List Item) :
    newItems mod (it :: items) = newItems mod items := by
  unfold newItems newFull
  simp [hf, List.filter_cons, hm]

/-! ## The iteration over containers that all extract -/

theorem eachWithBreak_continue {σ : Type} {f : Nat → Container → σ → σ × Bool} {idx : Nat}
    {sel : Container} {rest : List Container} {s s1 : σ} (h : f idx sel s = (s1, true)) :
    eachWithBreak f idx (sel :: rest) s = eachWithBreak f (idx + 1) rest s1 := by
  simp only [eachWithBreak, h]

theorem eachWithBreak_break {σ : Type} {f : Nat → Container → σ → σ × Bool} {idx : Nat}
    {sel : Container} {rest : List Container} {s s1 : σ} (h : f idx sel s = (s1, false)) :
    eachWithBreak f idx (sel :: rest) s = s1 := by
  simp only [eachWithBreak, h]

/-- When every container extracts, the scan leaves `errInEach` alone, sends the events of
the new candidates unless `skipNextFetch` was set, and clears `skipNextFetch` exactly when
some candidate is new. -/
theorem scan_items {URL : Type} (lib : UrlLib URL) (site : URL) (mod0 : CrawlerBee)
    {cs : List Container} {items : List Item}
    (hex : List.Forall₂ (fun c it => extract lib site mod0 c = .ok it) cs items) :
    ∀ (idx : Nat) (s : Scan), SameOptions s.mod mod0 →
      (eachWithBreak (callback lib site mod0.lastTitle) idx cs s).errInEach = s.errInEach ∧
      (eachWithBreak (callback lib site mod0.lastTitle) idx cs s).mod.eventChan =
        s.mod.eventChan ++
          (if s.mod.skipNextFetch then []
           else (newItems mod0 items).map (Item.event mod0.name)) ∧
      (eachWithBreak (callback lib site mod0.lastTitle) idx cs s).mod.skipNextFetch =
        (s.mod.skipNextFetch && (newItems mod0 items).isEmpty) := by
  induction hex with
  | nil =>
    intro idx s _
    simp [eachWithBreak, newItems_nil]
  | @cons c it cs items hc _ ih =>
    intro idx s hs
    obtain ⟨ht, hu, hd⟩ := extract_ok hc
    rw [← extractTitle_congr hs] at ht
    rw [← extractUri_congr lib site hs] at hu
    rw [← extractDescription_congr hs] at hd
    by_cases hn : Fresh mod0 mod0.lastTitle it.title
    · have hn1 : Fresh s.mod mod0.lastTitle it.title := hn.congr hs
      rw [newItems_cons_fresh hn]
      cases hk : s.mod.skipNextFetch with
      | true =>
        rw [eachWithBreak_break (callback_skip lib site _ idx c s ht hn1 hu hd hk)]
        simp
      | false =>
        rw [eachWithBreak_continue (callback_emit lib site _ idx c s ht hn1 hu hd hk)]
        have hso := callback_sameOptions lib site mod0.lastTitle idx c s
        rw [callback_emit lib site _ idx c s ht hn1 hu hd hk] at hso
        obtain ⟨h1, h2, h3⟩ := ih (idx + 1) _ (hso.trans_ hs)
        refine ⟨h1, ?_, ?_⟩
        · rw [h2]
          simp [hk, Item.event, hs.1]
        · rw [h3]
          simp [hk]
    · rcases not_fresh hn with ⟨hf, heq⟩ | ⟨hf, hm⟩
      · rw [newItems_cons_stop hf heq]
        rw [eachWithBreak_break (callback_stop lib site _ idx c s ht (hs.2.2.2.2.1.trans hf) heq)]
        simp
      · rw [newItems_cons_seen hf hm]
        have hm1 : it.title ∈ s.mod.lastTitleM := by rw [hs.2.2.2.2.2]; exact hm
        rw [eachWithBreak_continue (callback_seen lib site _ idx c s ht (hs.2.2.2.2.1.trans hf) hm1)]
        exact ih (idx + 1) _ hs

/-! ## From the iteration to `Fetch` -/

section FetchEq

variable {URL : Type} {lib : UrlLib URL} {site : URL} {mod : CrawlerBee}

theorem Fetch_eq (hsite : lib.parse mod.url = some site) (habs : lib.isAbs site = true)
    (doc : Document) :
    Fetch lib (.ok doc) mod =
      if (doc.find mod.feedSel).length < 1 then
        (mod, some (.feedSelLength (doc.find mod.feedSel).length))
      else
        match (scan lib site mod doc).errInEach with
        | some e => ((scan lib site mod doc).mod, some e)
        | none =>
          if (scan lib site mod doc).mod.fullCompare then
            ({ (scan lib site mod doc).mod with
                lastTitleM := (scan lib site mod doc).lastTitleM }, none)
          else ((scan lib site mod doc).mod, none) := by
  unfold Fetch scan
  simp only [hsite, habs, Bool.not_true, Bool.false_eq_true, if_false]

theorem scan_nil (doc : Document) (h : doc.find mod.feedSel = []) :
    scan lib site mod doc = { mod := mod, errInEach := none, lastTitleM := ∅, feedCnt := 0 } := by
  unfold scan
  rw [h]
  rfl

theorem Fetch_eventChan (hsite : lib.parse mod.url = some site)
    (habs : lib.isAbs site = true) (doc : Document) :
    (Fetch lib (.ok doc) mod).1.eventChan = (scan lib site mod doc).mod.eventChan := by
  rw [Fetch_eq hsite habs]
  split
  · rename_i h
    have h0 : doc.find mod.feedSel = [] := by
      cases hc : doc.find mod.feedSel with
      | nil => rfl
      | cons a l => rw [hc] at h; simp at h
    rw [scan_nil doc h0]
  · split
    · rfl
    · split <;> rfl

theorem Fetch_skipNextFetch (hsite : lib.parse mod.url = some site)
    (habs : lib.isAbs site = true) (doc : Document) :
    (Fetch lib (.ok doc) mod).1.skipNextFetch = (scan lib site mod doc).mod.skipNextFetch := by
  rw [Fetch_eq hsite habs]
  split
  · rename_i h
    have h0 : doc.find mod.feedSel = [] := by
      cases hc : doc.find mod.feedSel with
      | nil => rfl
      | cons a l => rw [hc] at h; simp at h
    rw [scan_nil doc h0]
  · split
    · rfl
    · split <;> rfl

theorem Fetch_error_of_cons (hsite : lib.parse mod.url = some site)
    (habs : lib.isAbs site = true) (doc : Document) {c : Container} {cs : List Container}
    (hc : doc.find mod.feedSel = c :: cs) :
    (Fetch lib (.ok doc) mod).2 = (scan lib site mod doc).errInEach := by
  rw [Fetch_eq hsite habs, hc]
  simp only [List.length_cons, Nat.lt_one_iff, Nat.add_one_ne_zero, if_false]
  split
  · rename_i e he
    rw [he]
  · rename_i he
    rw [he]
    split <;> rfl

/-- The events sent and the flag left by a poll in which every container extracts. -/
theorem Fetch_items (hsite : lib.parse mod.url = some site) (habs : lib.isAbs site = true)
    (doc : Document) {items : List Item}
    (hex : List.Forall₂ (fun c it => extract lib site mod c = .ok it)
      (doc.find mod.feedSel) items) :
    (Fetch lib (.ok doc) mod).1.eventChan =
        mod.eventChan ++
          (if mod.skipNextFetch then []
           else (newItems mod items).map (Item.event mod.name)) ∧
      (Fetch lib (.ok doc) mod).1.skipNextFetch =
        (mod.skipNextFetch && (newItems mod items).isEmpty) := by
  rw [Fetch_eventChan hsite habs, Fetch_skipNextFetch hsite habs]
  obtain ⟨_, h2, h3⟩ := scan_items lib site mod hex 0
    { mod := mod, errInEach := none, lastTitleM := ∅, feedCnt := 0 } (SameOptions.rfl_ mod)
  exact ⟨h2, h3⟩

end FetchEq

theorem newSimple_eq_take (lt : String) :
    ∀ (items : List Item) (k : Nat), (items.map Item.title)[k]? = some lt →
      (∀ j, j < k → (items.map Item.title)[j]? ≠ some lt) →
      newSimple lt items = items.take k := by
  intro items
  induction items with
  | nil => intro k h _; simp at h
  | cons it items ih =>
    intro k hk hmin
    cases k with
    | zero =>
      simp at hk
      simp [newSimple, List.takeWhile_cons, hk]
    | succ k =>
      have h0 := hmin 0 (Nat.succ_pos k)
      simp at h0
      have hrest := ih k (by simpa using hk) (fun j hj => by
        have := hmin (j + 1) (Nat.succ_lt_succ hj)
        simpa using this)
      unfold newSimple at hrest ⊢
      simp [List.takeWhile_cons, h0, hrest]

theorem newSimple_eq_self (lt : String) (items : List Item)
    (h : lt ∉ items.map Item.title) : newSimple lt items = items := by
  unfold newSimple
  rw [List.takeWhile_eq_self_iff]
  intro it hit
  simp only [bne_iff_ne, ne_eq]
  intro heq
  exact h (by rw [← heq]; exact List.mem_map_of_mem _ hit)

/-! ## Claims about polls in which every container extracts -/

/-- C1. Simple-mode law: with `fullCompare` and `skipNextFetch` both false and every
container extracting, the events sent by the poll are those of the candidates before
the least index `k` whose title is the remembered `lastTitle`, in document order, and
those of all candidates when no title is the remembered one. -/
theorem simple_mode_new_items {URL : Type} (lib : UrlLib URL) (site : URL)
    (mod : CrawlerBee) (doc : Document) (items : List Item)
    (hsite : lib.parse mod.url = some site) (habs : lib.isAbs site = true)
    (hfull : mod.fullCompare = false) (hskip : mod.skipNextFetch = false)
    (hex : List.Forall₂ (fun c it => extract lib site mod c = .ok it)
      (doc.find mod.feedSel) items) :
    (∀ k, (items.map Item.title)[k]? = some mod.lastTitle →
        (∀ j, j < k → (items.map Item.title)[j]? ≠ some mod.lastTitle) →
        (Fetch lib (.ok doc) mod).1.eventChan =
          mod.eventChan ++ (items.take k).map (Item.event mod.name)) ∧
      (mod.lastTitle ∉ items.map Item.title →
        (Fetch lib (.ok doc) mod).1.eventChan =
          mod.eventChan ++ items.map (Item.event mod.name)) := by
  have h := (Fetch_items hsite habs doc hex).1
  simp only [hskip, Bool.false_eq_true, if_false, newItems, hfull] at h
  refine ⟨fun k hk hmin => ?_, fun habsent => ?_⟩
  · rw [h, newSimple_eq_take _ items k hk hmin]
  · rw [h, newSimple_eq_self _ items habsent]

theorem simple_mode_new_items_witness :
    (Fetch toyLib (.ok docABC) (mkBee false false "B" ∅)).1.eventChan =
      [Item.event "crawler" (itemOf "A")] :=
  (simple_mode_new_items toyLib "h://site" (mkBee false false "B" ∅) docABC
    [itemOf "A", itemOf "B", itemOf "C"] rfl rfl rfl rfl
    (.cons rfl (.cons rfl (.cons rfl .nil)))).1 1 (by decide) (by decide)

/-- C2. Full-mode law: with `fullCompare` true, `skipNextFetch` false and every container
extracting, the events sent by the poll are those of the candidates whose title is not in
`lastTitleM` as it stood before the poll, in document order, wherever they sit. -/
theorem full_mode_new_items {URL : Type} (lib : UrlLib URL) (site : URL)
    (mod : CrawlerBee) (doc : Document) (items : List Item)
    (hsite : lib.parse mod.url = some site) (habs : lib.isAbs site = true)
    (hfull : mod.fullCompare = true) (hskip : mod.skipNextFetch = false)
    (hex : List.Forall₂ (fun c it => extract lib site mod c = .ok it)
      (doc.find mod.feedSel) items) :
    (Fetch lib (.ok doc) mod).1.eventChan =
      mod.eventChan ++
        (items.filter (fun it => decide (it.title ∉ mod.lastTitleM))).map
          (Item.event mod.name) := by
  have h := (Fetch_items hsite habs doc hex).1
  simp only [hskip, Bool.false_eq_true, if_false, newItems, hfull, if_true, newFull] at h
  exact h

theorem full_mode_new_items_witness :
    (Fetch toyLib (.ok docABC) (mkBee true false "" {"B", "C"})).1.eventChan =
      [Item.event "crawler" (itemOf "A")] :=
  full_mode_new_items toyLib "h://site" (mkBee true false "" {"B", "C"}) docABC
    [itemOf "A", itemOf "B", itemOf "C"] rfl rfl rfl rfl
    (.cons rfl (.cons rfl (.cons rfl .nil)))

/-- C3, as the claim states it, fails: four containers extract, the first three are new
under the Simple rule, `skipNextFetch` is set, and the poll sends no event at all rather
than the events of the second and third new items. -/
theorem skip_first_sends_nothing :
    List.Forall₂ (fun c it => extract toyLib "h://site" (mkBee false true "D" ∅) c = .ok it)
        (docABCD.find "f") [itemOf "A", itemOf "B", itemOf "C", itemOf "D"] ∧
      newItems (mkBee false true "D" ∅) [itemOf "A", itemOf "B", itemOf "C", itemOf "D"] =
        [itemOf "A", itemOf "B", itemOf "C"] ∧
      (Fetch toyLib (.ok docABCD) (mkBee false true "D" ∅)).1.eventChan = [] ∧
      (Fetch toyLib (.ok docABCD) (mkBee false true "D" ∅)).1.eventChan ≠
        [Item.event "crawler" (itemOf "B"), Item.event "crawler" (itemOf "C")] :=
  ⟨.cons rfl (.cons rfl (.cons rfl (.cons rfl .nil))), by decide, by decide, by decide⟩

/-- C3, amended. A poll started with `skipNextFetch` set in which exactly three
containers are new under the active novelty rule, every container extracting, sends no
event, and `skipNextFetch` is false afterwards. -/
theorem skip_first_suppresses_poll {URL : Type} (lib : UrlLib URL) (site : URL)
    (mod : CrawlerBee) (doc : Document) (items : List Item)
    (hsite : lib.parse mod.url = some site) (habs : lib.isAbs site = true)
    (hskip : mod.skipNextFetch = true)
    (hex : List.Forall₂ (fun c it => extract lib site mod c = .ok it)
      (doc.find mod.feedSel) items)
    (hnew : (newItems mod items).length = 3) :
    (Fetch lib (.ok doc) mod).1.eventChan = mod.eventChan ∧
      (Fetch lib (.ok doc) mod).1.skipNextFetch = false := by
  obtain ⟨h1, h2⟩ := Fetch_items hsite habs doc hex
  have hne : (newItems mod items).isEmpty = false := by
    cases hl : newItems mod items with
    | nil => rw [hl] at hnew; cases hnew
    | cons a l => rfl
  rw [h1, h2, hskip, hne]
  simp

theorem skip_first_suppresses_poll_witness :
    (Fetch toyLib (.ok docABCD) (mkBee true true "" {"B"})).1.eventChan = [] ∧
      (Fetch toyLib (.ok docABCD) (mkBee true true "" {"B"})).1.skipNextFetch = false :=
  skip_first_suppresses_poll toyLib "h://site" (mkBee true true "" {"B"}) docABCD
    [itemOf "A", itemOf "B", itemOf "C", itemOf "D"] rfl rfl rfl
    (.cons rfl (.cons rfl (.cons rfl (.cons rfl .nil)))) (by decide)

/-! ## The remembered title -/

theorem callback_lastTitle {URL : Type} (lib : UrlLib URL) (site : URL) (lt : String)
    {idx : Nat} (hidx : idx ≠ 0) (sel : Container) (s : Scan) :
    (callback lib site lt idx sel s).1.mod.lastTitle = s.mod.lastTitle := by
  unfold callback
  split
  · rfl
  · dsimp only
    split
    · rfl
    · split
      · rfl
      · split
        · rfl
        · split
          · rfl
          · simp only [beq_iff_eq, hidx, if_false]
            split <;> rfl

theorem eachWithBreak_lastTitle {URL : Type} (lib : UrlLib URL) (site : URL) (lt : String) :
    ∀ (cs : List Container) (idx : Nat), idx ≠ 0 → ∀ s : Scan,
      (eachWithBreak (callback lib site lt) idx cs s).mod.lastTitle = s.mod.lastTitle := by
  intro cs
  induction cs with
  | nil => intro idx _ s; rfl
  | cons c cs ih =>
    intro idx hidx s
    have hc := callback_lastTitle lib site lt hidx c s
    cases hr : callback lib site lt idx c s with
    | mk s1 b =>
      rw [hr] at hc
      cases b with
      | true =>
        rw [eachWithBreak_continue hr, ih (idx + 1) (Nat.succ_ne_zero idx) s1]
        exact hc
      | false =>
        rw [eachWithBreak_break hr]
        exact hc

theorem Fetch_lastTitle {URL : Type} {lib : UrlLib URL} {site : URL} {mod : CrawlerBee}
    (hsite : lib.parse mod.url = some site) (habs : lib.isAbs site = true)
    (doc : Document) :
    (Fetch lib (.ok doc) mod).1.lastTitle = (scan lib site mod doc).mod.lastTitle := by
  rw [Fetch_eq hsite habs]
  split
  · rename_i h
    have h0 : doc.find mod.feedSel = [] := by
      cases hc : doc.find mod.feedSel with
      | nil => rfl
      | cons a l => rw [hc] at h; simp at h
    rw [scan_nil doc h0]
  · split
    · rfl
    · split <;> rfl

/-- What the scan leaves in `lastTitle` and `errInEach`, read off the first container
in Simple mode: an error stops it, otherwise `lastTitle` is that container's title. -/
theorem scan_first_simple {URL : Type} (lib : UrlLib URL) (site : URL) (mod : CrawlerBee)
    (doc : Document) {c : Container} {rest : List Container}
    (hc : doc.find mod.feedSel = c :: rest) (hfull : mod.fullCompare = false)
    (hok : (scan lib site mod doc).errInEach = none) :
    extractTitle mod c = .ok (scan lib site mod doc).mod.lastTitle := by
  unfold scan at hok ⊢
  rw [hc] at hok ⊢
  generalize hs0 : ({ mod := mod, errInEach := none, lastTitleM := ∅, feedCnt := 0 } : Scan)
    = s0 at hok ⊢
  have hm : s0.mod = mod := by rw [← hs0]
  have hf0 : s0.mod.fullCompare = false := by rw [hm]; exact hfull
  cases ht : extractTitle mod c with
  | error e =>
    rw [← hm] at ht
    rw [eachWithBreak_break (callback_title_error lib site _ 0 c s0 ht)] at hok
    cases hok
  | ok t =>
    rw [← hm] at ht
    by_cases heq : t = mod.lastTitle
    · rw [eachWithBreak_break (callback_stop lib site _ 0 c s0 ht hf0 heq)]
      simp only [hm, heq]
    · have hn : Fresh s0.mod mod.lastTitle t :=
        ⟨fun _ => heq, fun h => absurd (hf0.symm.trans h) (by decide)⟩
      cases hu : extractUri lib site s0.mod c with
      | error e =>
        rw [eachWithBreak_break (callback_uri_error lib site _ 0 c s0 ht hn hu)] at hok
        cases hok
      | ok u =>
        cases hd : extractDescription s0.mod c with
        | error e =>
          rw [eachWithBreak_break
            (callback_description_error lib site _ 0 c s0 ht hn hu hd)] at hok
          cases hok
        | ok d =>
          cases hk : s0.mod.skipNextFetch with
          | true =>
            rw [eachWithBreak_break (callback_skip lib site _ 0 c s0 ht hn hu hd hk)]
            simp
          | false =>
            rw [eachWithBreak_continue (callback_emit lib site _ 0 c s0 ht hn hu hd hk),
              eachWithBreak_lastTitle lib site _ rest 1 (by decide)]
            simp

/-- C7. Simple-variant memory: with `fullCompare` false, after every poll that returns
no error, `lastTitle` is the title of the first container of the document, whatever
`skipNextFetch` was and whether or not the scan stopped early. -/
theorem simple_memory_is_first_title {URL : Type} (lib : UrlLib URL)
    (resp : Except String Document) (mod : CrawlerBee)
    (hfull : mod.fullCompare = false) (hok : (Fetch lib resp mod).2 = none) :
    ∃ doc c rest, resp = .ok doc ∧ doc.find mod.feedSel = c :: rest ∧
      extractTitle mod c = .ok (Fetch lib resp mod).1.lastTitle := by
  cases hsite : lib.parse mod.url with
  | none => simp [Fetch, hsite] at hok
  | some site =>
    cases habs : lib.isAbs site with
    | false => simp [Fetch, hsite, habs] at hok
    | true =>
      cases resp with
      | error msg => simp [Fetch, hsite, habs] at hok
      | ok doc =>
        cases hc : doc.find mod.feedSel with
        | nil => simp [Fetch, hsite, habs, hc] at hok
        | cons c rest =>
          refine ⟨doc, c, rest, rfl, hc, ?_⟩
          rw [Fetch_error_of_cons hsite habs doc hc] at hok
          rw [Fetch_lastTitle hsite habs]
          exact scan_first_simple lib site mod doc hc hfull hok

theorem simple_memory_is_first_title_witness :
    ∃ doc c rest, (Except.ok docABC : Except String Document) = .ok doc ∧
      doc.find "f" = c :: rest ∧
      extractTitle (mkBee false true "B" ∅) c =
        .ok (Fetch toyLib (.ok docABC) (mkBee false true "B" ∅)).1.lastTitle :=
  simple_memory_is_first_title toyLib (.ok docABC) (mkBee false true "B" ∅) rfl (by decide)

/-! ## A container that fails when the scan examines it -/

/-- A container whose extraction fails, and whose title (if it has one) passes the
novelty test, makes the closure record the error and break, the bee untouched. -/
theorem callback_fail {URL : Type} (lib : UrlLib URL) (site : URL) (lt : String) (idx : Nat)
    (c : Container) (s : Scan) {e : FetchError} (hfail : extract lib site s.mod c = .error e)
    (hfresh : ∀ t, extractTitle s.mod c = .ok t → Fresh s.mod lt t) :
    ∃ s1, callback lib site lt idx c s = (s1, false) ∧ s1.errInEach = some e ∧
      s1.mod = s.mod := by
  unfold extract at hfail
  cases ht : extractTitle s.mod c with
  | error e1 =>
    rw [ht] at hfail
    cases hfail
    exact ⟨_, callback_title_error lib site lt idx c s ht, rfl, rfl⟩
  | ok t =>
    rw [ht] at hfail
    have hn := hfresh t ht
    cases hu : extractUri lib site s.mod c with
    | error e1 =>
      rw [hu] at hfail
      cases hfail
      exact ⟨_, callback_uri_error lib site lt idx c s ht hn hu, rfl, rfl⟩
    | ok u =>
      rw [hu] at hfail
      cases hd : extractDescription s.mod c with
      | error e1 =>
        rw [hd] at hfail
        cases hfail
        exact ⟨_, callback_description_error lib site lt idx c s ht hn hu hd, rfl, rfl⟩
      | ok d =>
        rw [hd] at hfail
        cases hfail

/-- The scan of containers that extract and do not stop it, followed by a container that
fails: the error is that container's, the events are those of the new candidates before
it. -/
theorem scan_fail {URL : Type} (lib : UrlLib URL) (site : URL) (mod0 : CrawlerBee)
    {pre : List Container} {items : List Item}
    (hex : List.Forall₂ (fun c it => extract lib site mod0 c = .ok it) pre items)
    (c : Container) (post : List Container) {e : FetchError}
    (hfail : extract lib site mod0 c = .error e)
    (hfresh : ∀ t, extractTitle mod0 c = .ok t → Fresh mod0 mod0.lastTitle t) :
    (mod0.fullCompare = false → mod0.lastTitle ∉ items.map Item.title) →
    ∀ (idx : Nat) (s : Scan), SameOptions s.mod mod0 →
      (s.mod.skipNextFetch = true → newItems mod0 items = []) →
      (eachWithBreak (callback lib site mod0.lastTitle) idx (pre ++ c :: post) s).errInEach
          = some e ∧
        (eachWithBreak (callback lib site mod0.lastTitle) idx (pre ++ c :: post) s).mod.eventChan
          = s.mod.eventChan ++ (newItems mod0 items).map (Item.event mod0.name) := by
  induction hex with
  | nil =>
    intro _ idx s hs _
    rw [← extract_congr lib site hs] at hfail
    have hfresh1 : ∀ t, extractTitle s.mod c = .ok t → Fresh s.mod mod0.lastTitle t := by
      intro t ht
      rw [extractTitle_congr hs] at ht
      exact (hfresh t ht).congr hs
    obtain ⟨s1, h1, h2, h3⟩ := callback_fail lib site mod0.lastTitle idx c s hfail hfresh1
    rw [List.nil_append, eachWithBreak_break h1, h2, h3, newItems_nil]
    simp
  | @cons c1 it pre items hc _ ih =>
    intro hsimple idx s hs hskip
    obtain ⟨ht, hu, hd⟩ := extract_ok hc
    rw [← extractTitle_congr hs] at ht
    rw [← extractUri_congr lib site hs] at hu
    rw [← extractDescription_congr hs] at hd
    have hsimple1 : mod0.fullCompare = false → mod0.lastTitle ∉ items.map Item.title := by
      intro hf hmem
      exact hsimple hf (by simp only [List.map_cons]; exact List.mem_cons_of_mem _ hmem)
    rw [List.cons_append]
    by_cases hn : Fresh mod0 mod0.lastTitle it.title
    · have hn1 : Fresh s.mod mod0.lastTitle it.title := hn.congr hs
      rw [newItems_cons_fresh hn] at hskip ⊢
      have hk : s.mod.skipNextFetch = false := by
        cases hk : s.mod.skipNextFetch with
        | false => rfl
        | true => exact absurd (hskip hk) (List.cons_ne_nil _ _)
      rw [eachWithBreak_continue (callback_emit lib site _ idx c1 s ht hn1 hu hd hk)]
      have hso := callback_sameOptions lib site mod0.lastTitle idx c1 s
      rw [callback_emit lib site _ idx c1 s ht hn1 hu hd hk] at hso
      obtain ⟨h1, h2⟩ := ih hsimple1 (idx + 1) _ (hso.trans_ hs)
        (fun h => absurd (hk.symm.trans h) (by decide))
      refine ⟨h1, ?_⟩
      rw [h2]
      simp [Item.event, hs.1]
    · rcases not_fresh hn with ⟨hf, heq⟩ | ⟨hf, hm⟩
      · exact absurd (by rw [← heq]; simp) (hsimple hf)
      · rw [newItems_cons_seen hf hm] at hskip ⊢
        have hm1 : it.title ∈ s.mod.lastTitleM := by rw [hs.2.2.2.2.2]; exact hm
        rw [eachWithBreak_continue
          (callback_seen lib site _ idx c1 s ht (hs.2.2.2.2.1.trans hf) hm1)]
        exact ih hsimple1 (idx + 1) _ hs hskip

/-- The poll of a document whose containers extract and do not stop the scan up to one
that fails. -/
theorem Fetch_fail {URL : Type} {lib : UrlLib URL} {site : URL} {mod : CrawlerBee}
    (hsite : lib.parse mod.url = some site) (habs : lib.isAbs site = true)
    (doc : Document) {pre post : List Container} {c : Container} {items : List Item}
    {e : FetchError} (hdoc : doc.find mod.feedSel = pre ++ c :: post)
    (hex : List.Forall₂ (fun c it => extract lib site mod c = .ok it) pre items)
    (hfail : extract lib site mod c = .error e)
    (hfresh : ∀ t, extractTitle mod c = .ok t → Fresh mod mod.lastTitle t)
    (hsimple : mod.fullCompare = false → mod.lastTitle ∉ items.map Item.title)
    (hskip : mod.skipNextFetch = true → newItems mod items = []) :
    (Fetch lib (.ok doc) mod).2 = some e ∧
      (Fetch lib (.ok doc) mod).1.eventChan =
        mod.eventChan ++ (newItems mod items).map (Item.event mod.name) := by
  have hcons : ∃ c1 cs1, doc.find mod.feedSel = c1 :: cs1 := by
    rw [hdoc]
    cases pre with
    | nil => exact ⟨c, post, rfl⟩
    | cons a l => exact ⟨a, l ++ c :: post, rfl⟩
  obtain ⟨c1, cs1, hc1⟩ := hcons
  rw [Fetch_error_of_cons hsite habs doc hc1, Fetch_eventChan hsite habs]
  unfold scan
  rw [hdoc]
  exact scan_fail lib site mod hex c post hfail hfresh hsimple 0 _ (SameOptions.rfl_ mod) hskip

/-! ## Claims about polls that fail -/

/-- C8, as the claim states it, fails: the second container has no title element, the
poll returns the `title_sel` error, and the event of the first container has been sent. -/
theorem failure_after_event_sent :
    extract toyLib "h://site" (mkBee false false "Z" ∅) untitled = .error (.titleSelLength 0) ∧
      (Fetch toyLib (.ok docAU) (mkBee false false "Z" ∅)).2 = some (.titleSelLength 0) ∧
      (Fetch toyLib (.ok docAU) (mkBee false false "Z" ∅)).1.eventChan =
        [Item.event "crawler" (itemOf "A")] :=
  ⟨rfl, by decide, by decide⟩

/-- C8, amended. When a container fails title, url or description extraction as the scan
examines it, the containers before it extracting without stopping the scan, the poll
returns that error and the events it sent are exactly those of the new candidates before
the failing container, in document order: none for the failing container or a later
one. -/
theorem failure_sends_earlier_items {URL : Type} (lib : UrlLib URL) (site : URL)
    (mod : CrawlerBee) (doc : Document) (pre post : List Container) (c : Container)
    (items : List Item) (e : FetchError)
    (hsite : lib.parse mod.url = some site) (habs : lib.isAbs site = true)
    (hdoc : doc.find mod.feedSel = pre ++ c :: post)
    (hex : List.Forall₂ (fun c it => extract lib site mod c = .ok it) pre items)
    (hfail : extract lib site mod c = .error e)
    (hfresh : ∀ t, extractTitle mod c = .ok t → Fresh mod mod.lastTitle t)
    (hsimple : mod.fullCompare = false → mod.lastTitle ∉ items.map Item.title)
    (hskip : mod.skipNextFetch = true → newItems mod items = []) :
    (Fetch lib (.ok doc) mod).2 = some e ∧
      (Fetch lib (.ok doc) mod).1.eventChan =
        mod.eventChan ++ (newItems mod items).map (Item.event mod.name) :=
  Fetch_fail hsite habs doc hdoc hex hfail hfresh hsimple hskip

theorem failure_sends_earlier_items_witness :
    (Fetch toyLib (.ok docAU) (mkBee false false "Z" ∅)).2 = some (.titleSelLength 0) ∧
      (Fetch toyLib (.ok docAU) (mkBee false false "Z" ∅)).1.eventChan =
        [Item.event "crawler" (itemOf "A")] :=
  failure_sends_earlier_items toyLib "h://site" (mkBee false false "Z" ∅) docAU
    [item "A"] [] untitled [itemOf "A"] (.titleSelLength 0) rfl rfl rfl
    (.cons rfl .nil) rfl (fun _ h => by cases h) (fun _ => by decide)
    (fun h => absurd h (by decide))

/-- C9, as the claim states it, fails: in Simple mode the scan stops at the remembered
title, the container without a title element behind it is never examined, and the poll
returns no error. -/
theorem malformed_behind_remembered_title :
    docAU.find "f" = [item "A", untitled] ∧ untitled.find "t" = some [] ∧
      (Fetch toyLib (.ok docAU) (mkBee false false "A" ∅)).2 = none :=
  ⟨rfl, rfl, by decide⟩

/-- C9, amended. A container with no match for `title_sel`, or whose first match has empty
text, makes the poll return a `title_sel` error whenever the scan reaches it: the
containers before it extract, in Simple mode none of them carries the remembered title,
and with `skipNextFetch` set none of them is new. -/
theorem malformed_title_fails_poll {URL : Type} (lib : UrlLib URL) (site : URL)
    (mod : CrawlerBee) (doc : Document) (pre post : List Container) (c : Container)
    (items : List Item)
    (hsite : lib.parse mod.url = some site) (habs : lib.isAbs site = true)
    (hdoc : doc.find mod.feedSel = pre ++ c :: post)
    (hex : List.Forall₂ (fun c it => extract lib site mod c = .ok it) pre items)
    (hbad : c.find mod.titleSel = some [] ∨
      ∃ n ns, c.find mod.titleSel = some (n :: ns) ∧ n.text.length = 0)
    (hsimple : mod.fullCompare = false → mod.lastTitle ∉ items.map Item.title)
    (hskip : mod.skipNextFetch = true → newItems mod items = []) :
    ∃ e, (Fetch lib (.ok doc) mod).2 = some e ∧ e.isTitleSel = true := by
  have hbad1 : ∃ e, extractTitle mod c = .error e ∧ e.isTitleSel = true := by
    rcases hbad with h0 | ⟨n, ns, h1, h2⟩
    · exact ⟨.titleSelLength 0, by simp [extractTitle, h0], rfl⟩
    · exact ⟨.titleSelEmpty, by simp [extractTitle, h1, h2], rfl⟩
  obtain ⟨e, he, hte⟩ := hbad1
  have hfail : extract lib site mod c = .error e := by
    unfold extract
    rw [he]
  have hfresh : ∀ t, extractTitle mod c = .ok t → Fresh mod mod.lastTitle t := by
    intro t ht
    rw [he] at ht
    cases ht
  exact ⟨e, (Fetch_fail hsite habs doc hdoc hex hfail hfresh hsimple hskip).1, hte⟩

theorem malformed_title_fails_poll_witness :
    ∃ e, (Fetch toyLib (.ok (mkDocument [item "B", item "A", untitled, item "C"]))
        (mkBee true true "" {"A", "B"})).2 = some e ∧ e.isTitleSel = true :=
  malformed_title_fails_poll toyLib "h://site" (mkBee true true "" {"A", "B"})
    (mkDocument [item "B", item "A", untitled, item "C"])
    [item "B", item "A"] [item "C"] untitled [itemOf "B", itemOf "A"] rfl rfl rfl
    (.cons rfl (.cons rfl .nil)) (Or.inl rfl) (fun h => absurd h (by decide))
    (fun _ => by decide)

/-! ## Memory after a poll: evaluations -/

/-- C4 at a failing input: the second container has no title element, the poll returns
the `title_sel` error, `lastTitleM` is what it was, and `lastTitle` has moved from `Z` to
the title of the first container. -/
theorem failure_moves_lastTitle :
    (Fetch toyLib (.ok docAU) (mkBee false false "Z" ∅)).2 = some (.titleSelLength 0) ∧
      (Fetch toyLib (.ok docAU) (mkBee false false "Z" ∅)).1.lastTitleM = ∅ ∧
      (mkBee false false "Z" ∅).lastTitle = "Z" ∧
      (Fetch toyLib (.ok docAU) (mkBee false false "Z" ∅)).1.lastTitle = "A" := by
  decide

/-- C5 at a failing input: Full mode, `skipNextFetch` set, empty memory.  The first poll
of `[A, B, C]` returns no error and sends nothing; the second poll of the same document
sends the events of `B` and `C`. -/
theorem second_poll_after_skip_sends_items :
    (Fetch toyLib (.ok docABC) (mkBee true true "" ∅)).2 = none ∧
      (Fetch toyLib (.ok docABC) (mkBee true true "" ∅)).1.eventChan = [] ∧
      (Fetch toyLib (.ok docABC)
          (Fetch toyLib (.ok docABC) (mkBee true true "" ∅)).1).1.eventChan =
        [Item.event "crawler" (itemOf "B"), Item.event "crawler" (itemOf "C")] := by
  decide

/-- C6 at a failing input: Full mode, `skipNextFetch` set, empty memory.  The poll of
`[A, B, C]` returns no error and leaves `lastTitleM` holding `A` alone. -/
theorem skip_truncates_full_memory :
    (Fetch toyLib (.ok docABC) (mkBee true true "" ∅)).2 = none ∧
      (Fetch toyLib (.ok docABC) (mkBee true true "" ∅)).1.lastTitleM = {"A"} ∧
      (Fetch toyLib (.ok docABC) (mkBee true true "" ∅)).1.lastTitleM ≠ {"A", "B", "C"} := by
  decide

/-! ## The url field of the events -/

theorem extractUri_rule {URL : Type} (lib : UrlLib URL) (site : URL) (mod : CrawlerBee)
    (c : Container) {uri : String} (h : extractUri lib site mod c = .ok uri) :
    UrlRule lib site mod c uri := by
  unfold extractUri at h
  by_cases h0 : mod.urlSel.length = 0
  · left
    simp [h0] at h
    exact ⟨h0, h.symm⟩
  · right
    refine ⟨h0, ?_⟩
    simp only [bne_iff_ne, ne_eq, h0, not_false_eq_true, if_true] at h
    cases hfind : c.find mod.urlSel with
    | none => rw [hfind] at h; cases h
    | some urlSel =>
      rw [hfind] at h
      cases urlSel with
      | nil => cases h
      | cons first rest =>
        dsimp only at h
        cases hhref : first.href with
        | none => rw [hhref] at h; cases h
        | some urlStr =>
          rw [hhref] at h
          dsimp only at h
          split at h
          · cases h
          · cases hp : lib.parse urlStr with
            | none => rw [hp] at h; cases h
            | some u =>
              rw [hp] at h
              dsimp only at h
              refine ⟨first, rest, urlStr, u, rfl, hhref, hp, ?_⟩
              cases habs : lib.isAbs u with
              | true =>
                left
                simp [habs] at h
                exact ⟨rfl, h.symm⟩
              | false =>
                right
                simp [habs] at h
                exact ⟨rfl, h.symm⟩

/-- One call of the closure sends nothing, or sends the event built from the title and
the link it extracted from the container. -/
theorem callback_events {URL : Type} (lib : UrlLib URL) (site : URL) (lt : String)
    (idx : Nat) (c : Container) (s : Scan) :
    (callback lib site lt idx c s).1.mod.eventChan = s.mod.eventChan ∨
      ∃ t d u, extractTitle s.mod c = .ok t ∧ extractUri lib site s.mod c = .ok u ∧
        (callback lib site lt idx c s).1.mod.eventChan =
          s.mod.eventChan ++ [newitemEvent s.mod.name t d u] := by
  cases ht : extractTitle s.mod c with
  | error e => left; rw [callback_title_error lib site lt idx c s ht]
  | ok t =>
    by_cases hn : Fresh s.mod lt t
    · cases hu : extractUri lib site s.mod c with
      | error e => left; rw [callback_uri_error lib site lt idx c s ht hn hu]
      | ok u =>
        cases hd : extractDescription s.mod c with
        | error e => left; rw [callback_description_error lib site lt idx c s ht hn hu hd]
        | ok d =>
          cases hk : s.mod.skipNextFetch with
          | true => left; rw [callback_skip lib site lt idx c s ht hn hu hd hk]
          | false =>
            right
            exact ⟨t, d, u, rfl, rfl, by rw [callback_emit lib site lt idx c s ht hn hu hd hk]⟩
    · rcases not_fresh hn with ⟨hf, heq⟩ | ⟨hf, hm⟩
      · left; rw [callback_stop lib site lt idx c s ht hf heq]
      · left; rw [callback_seen lib site lt idx c s ht hf hm]

/-- Every event the scan sends is built from the title and the link extracted from one of
the containers. -/
theorem scan_events {URL : Type} (lib : UrlLib URL) (site : URL) (mod0 : CrawlerBee) :
    ∀ (cs : List Container) (idx : Nat) (s : Scan), SameOptions s.mod mod0 →
      ∃ new, (eachWithBreak (callback lib site mod0.lastTitle) idx cs s).mod.eventChan =
          s.mod.eventChan ++ new ∧
        ∀ ev ∈ new, ∃ c ∈ cs, ∃ t d u, extractTitle mod0 c = .ok t ∧
          extractUri lib site mod0 c = .ok u ∧ ev = newitemEvent mod0.name t d u := by
  intro cs
  induction cs with
  | nil =>
    intro idx s _
    exact ⟨[], by simp [eachWithBreak], fun ev hev => by cases hev⟩
  | cons c cs ih =>
    intro idx s hs
    have hev := callback_events lib site mod0.lastTitle idx c s
    have hso := callback_sameOptions lib site mod0.lastTitle idx c s
    rw [extractTitle_congr hs, extractUri_congr lib site hs, hs.1] at hev
    cases hr : callback lib site mod0.lastTitle idx c s with
    | mk s1 b =>
      rw [hr] at hev hso
      dsimp only at hev hso
      have hone : ∃ one, s1.mod.eventChan = s.mod.eventChan ++ one ∧
          ∀ ev ∈ one, ∃ t d u, extractTitle mod0 c = .ok t ∧
            extractUri lib site mod0 c = .ok u ∧ ev = newitemEvent mod0.name t d u := by
        rcases hev with h | ⟨t, d, u, h1, h2, h3⟩
        · exact ⟨[], by simp [h], fun ev hev => by cases hev⟩
        · refine ⟨[newitemEvent mod0.name t d u], h3, fun ev hev => ?_⟩
          rw [List.mem_singleton] at hev
          exact ⟨t, d, u, h1, h2, hev⟩
      obtain ⟨one, ho1, ho2⟩ := hone
      cases b with
      | false =>
        rw [eachWithBreak_break hr]
        refine ⟨one, ho1, fun ev hev => ?_⟩
        exact ⟨c, List.mem_cons_self _ _, ho2 ev hev⟩
      | true =>
        rw [eachWithBreak_continue hr]
        obtain ⟨new, hn1, hn2⟩ := ih (idx + 1) s1 (hso.trans_ hs)
        refine ⟨one ++ new, by rw [hn1, ho1, List.append_assoc], fun ev hev => ?_⟩
        rcases List.mem_append.mp hev with h | h
        · exact ⟨c, List.mem_cons_self _ _, ho2 ev h⟩
        · obtain ⟨c1, hc1, hrest⟩ := hn2 ev h
          exact ⟨c1, List.mem_cons_of_mem _ hc1, hrest⟩

/-- C10. Every event a poll sends is a `new_item` event built from a container of the
document, with the placeholders title, description and url in that order, and the value
of its url placeholder follows the rule: empty when `url_sel` is not configured; otherwise
the `href` of the first `url_sel` match, unchanged character for character when it parses
as absolute, and the string of its resolution against the bee's base url when it parses as
relative. -/
theorem url_resolution {URL : Type} (lib : UrlLib URL) (site : URL) (mod : CrawlerBee)
    (doc : Document)
    (hsite : lib.parse mod.url = some site) (habs : lib.isAbs site = true) :
    ∃ new, (Fetch lib (.ok doc) mod).1.eventChan = mod.eventChan ++ new ∧
      ∀ ev ∈ new, ∃ c ∈ doc.find mod.feedSel, ∃ t d u, extractTitle mod c = .ok t ∧
        ev.bee = mod.name ∧ ev.name = "new_item" ∧
        ev.options =
          [ { name := "title", type := "string", value := t },
            { name := "description", type := "string", value := d },
            { name := "url", type := "string", value := u } ] ∧
        UrlRule lib site mod c u := by
  rw [Fetch_eventChan hsite habs]
  obtain ⟨new, h1, h2⟩ := scan_events lib site mod (doc.find mod.feedSel) 0
    { mod := mod, errInEach := none, lastTitleM := ∅, feedCnt := 0 } (SameOptions.rfl_ mod)
  refine ⟨new, h1, fun ev hev => ?_⟩
  obtain ⟨c, hc, t, d, u, ht, hu, he⟩ := h2 ev hev
  refine ⟨c, hc, t, d, u, ht, ?_, ?_, ?_, extractUri_rule lib site mod c hu⟩
  · rw [he]; rfl
  · rw [he]; rfl
  · rw [he]; rfl

theorem url_resolution_witness :
    (Fetch toyLib (.ok docLinks) (mkBee false false "Z" ∅)).1.eventChan =
        [ { bee := "crawler", name := "new_item",
            options :=
              [ { name := "title", type := "string", value := "A" },
                { name := "description", type := "string", value := "about A" },
                { name := "url", type := "string", value := "h://other/a" } ] },
          { bee := "crawler", name := "new_item",
            options :=
              [ { name := "title", type := "string", value := "B" },
                { name := "description", type := "string", value := "about B" },
                { name := "url", type := "string", value := "h://site/B" } ] } ] ∧
      (Fetch toyLib (.ok docLinks) beeNoUrlSel).1.eventChan.map
          (fun ev => ev.options.map (fun p => (p.name, p.value))) =
        [ [("title", "A"), ("description", "about A"), ("url", "")],
          [("title", "B"), ("description", "about B"), ("url", "")] ] ∧
      ∃ new, (Fetch toyLib (.ok docLinks) (mkBee false false "Z" ∅)).1.eventChan = [] ++ new ∧
        ∀ ev ∈ new, ∃ c ∈ docLinks.find "f", ∃ t d u,
          extractTitle (mkBee false false "Z" ∅) c = .ok t ∧
          ev.bee = "crawler" ∧ ev.name = "new_item" ∧
          ev.options =
            [ { name := "title", type := "string", value := t },
              { name := "description", type := "string", value := d },
              { name := "url", type := "string", value := u } ] ∧
          UrlRule toyLib "h://site" (mkBee false false "Z" ∅) c u :=
  ⟨by decide, by decide,
    url_resolution toyLib "h://site" (mkBee false false "Z" ∅) docLinks rfl rfl⟩

end Crawlerbee
